import Mathlib

/-!
Shallow embedding of the in-memory task store of the task-manager repository
(file src/app/services/task.service.ts and the task model in
src/app/models/task.model.ts), together with the filtering projection of
src/app/components/task-list/task-list.component.ts.

Timestamps (JS Date values) are modelled as integers (milliseconds).
The store state carries both public read views of the service: the signal
view (field tasks, from the private _tasks signal) and the Observable view
(field tasksObs, from the private _tasks$ BehaviorSubject), plus the private
counter _nextId.
-/

namespace TaskManager

/-- The priority union type 'low' | 'medium' | 'high' of task.model.ts. -/
inductive Priority where
  | low
  | medium
  | high
deriving DecidableEq, Repr

/-- The Task interface of task.model.ts.  The optional description field is
always a string on every task the service ever constructs (createTask writes
taskRequest.description || '' and the sample data supplies strings), so it is
modelled as a plain string; dueDate genuinely stays optional. -/
structure Task where
  id : String
  title : String
  description : String
  completed : Bool
  priority : Priority
  createdAt : Int
  updatedAt : Int
  dueDate : Option Int
deriving DecidableEq, Repr

/-- The CreateTaskRequest interface of task.model.ts: title required, the
rest optional. -/
structure CreateTaskRequest where
  title : String
  description : Option String := none
  priority : Option Priority := none
  dueDate : Option Int := none
deriving DecidableEq, Repr

/-- The UpdateTaskRequest interface of task.model.ts: every field optional;
a field that is none is absent from the patch object. -/
structure UpdateTaskRequest where
  title : Option String := none
  description : Option String := none
  completed : Option Bool := none
  priority : Option Priority := none
  dueDate : Option Int := none
deriving DecidableEq, Repr

/-- The mutable state of TaskService: the _tasks signal, the _tasks$
BehaviorSubject (its current value), and the _nextId counter. -/
structure TaskServiceState where
  tasks : List Task
  tasksObs : List Task
  nextId : Nat
deriving DecidableEq, Repr

/-- The field initializers of TaskService run before the constructor body:
_tasks = [], _tasks$ = BehaviorSubject([]), _nextId = 1. -/
def fieldInitState : TaskServiceState :=
  { tasks := [], tasksObs := [], nextId := 1 }

/-- The two sample tasks built by initializeSampleData, relative to the
current clock value now (Date.now()). -/
def sampleTasks (now : Int) : List Task :=
  [ { id := "1"
      title := "Configurar Angular Material"
      description := "Instalar y configurar Angular Material en el proyecto"
      completed := true
      priority := Priority.high
      createdAt := now - 86400000
      updatedAt := now - 86400000
      dueDate := none },
    { id := "2"
      title := "Crear componentes de tareas"
      description := "Desarrollar los componentes de lista de tareas, elemento de tarea y formulario de tarea"
      completed := false
      priority := Priority.high
      createdAt := now - 3600000
      updatedAt := now - 3600000
      dueDate := some (now + 259200000) } ]

/-- initializeSampleData: sets both views to the sample tasks and _nextId
to 3.  The TaskService constructor calls this, so this is also the state of
a freshly constructed service. -/
def initializeSampleData (now : Int) : TaskServiceState :=
  { tasks := sampleTasks now, tasksObs := sampleTasks now, nextId := 3 }

/-- createTask: builds the new task (id = _nextId.toString(), description
defaulted via || '' which equals getD "" because the empty string is the only
falsy string, priority defaulted via || 'medium', completed = false,
createdAt = updatedAt = now), increments _nextId, appends the task to both
views, and returns it. -/
def createTask (s : TaskServiceState) (taskRequest : CreateTaskRequest) (now : Int) :
    Task × TaskServiceState :=
  let newTask : Task :=
    { id := Nat.repr s.nextId
      title := taskRequest.title
      description := taskRequest.description.getD ""
      completed := false
      priority := taskRequest.priority.getD Priority.medium
      createdAt := now
      updatedAt := now
      dueDate := taskRequest.dueDate }
  let updatedTasks := s.tasks ++ [newTask]
  (newTask, { tasks := updatedTasks, tasksObs := updatedTasks, nextId := s.nextId + 1 })

/-- updateTask: findIndex by id; on -1 returns null with no state change;
otherwise builds the spread merge \x7b...existingTask, ...updateRequest,
updatedAt: now\x7d (a patch field that is present overrides, an absent one keeps
the stored value; id and createdAt are not patchable), writes it back at the
same index in both views, and returns it.  The inner none branch is
unreachable (findIndex returns an in-bounds index). -/
def updateTask (s : TaskServiceState) (id : String) (updateRequest : UpdateTaskRequest)
    (now : Int) : Option Task × TaskServiceState :=
  match s.tasks.findIdx? (fun t => t.id == id) with
  | none => (none, s)
  | some taskIndex =>
    match s.tasks[taskIndex]? with
    | none => (none, s)
    | some existingTask =>
      let updatedTask : Task :=
        { id := existingTask.id
          title := updateRequest.title.getD existingTask.title
          description := updateRequest.description.getD existingTask.description
          completed := updateRequest.completed.getD existingTask.completed
          priority := updateRequest.priority.getD existingTask.priority
          createdAt := existingTask.createdAt
          updatedAt := now
          dueDate := updateRequest.dueDate.or existingTask.dueDate }
      let updatedTasks := s.tasks.set taskIndex updatedTask
      (some updatedTask,
        { tasks := updatedTasks, tasksObs := updatedTasks, nextId := s.nextId })

/-- deleteTask: filters out every task whose id matches; if the length did
not change returns false with no state change, otherwise installs the
filtered list in both views and returns true. -/
def deleteTask (s : TaskServiceState) (id : String) : Bool × TaskServiceState :=
  let filteredList := s.tasks.filter (fun t => !(t.id == id))
  if filteredList.length == s.tasks.length then
    (false, s)
  else
    (true, { tasks := filteredList, tasksObs := filteredList, nextId := s.nextId })

/-- toggleTaskCompletion: find by id; on miss returns null with no state
change; otherwise delegates to updateTask with the single-field patch
completed = !task.completed. -/
def toggleTaskCompletion (s : TaskServiceState) (id : String) (now : Int) :
    Option Task × TaskServiceState :=
  match s.tasks.find? (fun t => t.id == id) with
  | none => (none, s)
  | some task => updateTask s id { completed := some (!task.completed) } now

/-- clearAllTasks: empties both views and resets _nextId to 1. -/
def clearAllTasks (_s : TaskServiceState) : TaskServiceState :=
  { tasks := [], tasksObs := [], nextId := 1 }

/-- The completedTasksCount computed signal. -/
def completedTasksCount (s : TaskServiceState) : Nat :=
  (s.tasks.filter (fun task => task.completed)).length

/-- The pendingTasksCount computed signal. -/
def pendingTasksCount (s : TaskServiceState) : Nat :=
  (s.tasks.filter (fun task => !task.completed)).length

/-- The totalTasksCount computed signal. -/
def totalTasksCount (s : TaskServiceState) : Nat :=
  s.tasks.length

/-- The filter selector of TaskListComponent.currentFilter. -/
inductive TaskFilter where
  | all
  | pending
  | completed
deriving DecidableEq, Repr

/-- The filteredTasks computed signal of TaskListComponent, as a pure
projection of the service's task list. -/
def filteredTasks (filter : TaskFilter) (tasks : List Task) : List Task :=
  match filter with
  | TaskFilter.completed => tasks.filter (fun task => task.completed)
  | TaskFilter.pending => tasks.filter (fun task => !task.completed)
  | TaskFilter.all => tasks

/-- One mutating operation of the service's public surface. -/
inductive Op where
  | create (taskRequest : CreateTaskRequest) (now : Int)
  | update (id : String) (updateRequest : UpdateTaskRequest) (now : Int)
  | toggle (id : String) (now : Int)
  | delete (id : String)
  | clearAll
deriving DecidableEq, Repr

/-- State transition of a single operation (discarding the returned value). -/
def applyOp (s : TaskServiceState) (op : Op) : TaskServiceState :=
  match op with
  | Op.create taskRequest now => (createTask s taskRequest now).2
  | Op.update id updateRequest now => (updateTask s id updateRequest now).2
  | Op.toggle id now => (toggleTaskCompletion s id now).2
  | Op.delete id => (deleteTask s id).2
  | Op.clearAll => clearAllTasks s

/-- Run a sequence of operations from a starting state. -/
def runOps (s : TaskServiceState) (ops : List Op) : TaskServiceState :=
  ops.foldl applyOp s

/-- The ids currently held by a task list. -/
def idsOf (tasks : List Task) : List String :=
  tasks.map (fun task => task.id)

/-! ### Injectivity of the decimal rendering used for ids

The service mints ids with _nextId.toString(), which is Nat.repr in the
embedding.  Distinctness of ids therefore rests on injectivity of Nat.repr,
proved here by eliminating the fuel of Nat.toDigitsCore. -/

/-- Fuel-free big-endian decimal digits, the value computed by
Nat.toDigitsCore at base 10. -/
def decimalChars (n : Nat) : List Char :=
  if _h : n < 10 then [Nat.digitChar n]
  else decimalChars (n / 10) ++ [Nat.digitChar (n % 10)]
decreasing_by
  exact Nat.div_lt_self (by omega) (by omega)

/-- Invariant carried by every reachable state of the service: each stored id
is the decimal rendering of a number below the _nextId counter, the stored
ids are pairwise distinct, and the Observable view agrees with the signal
view. -/
def StoreInv (s : TaskServiceState) : Prop :=
  (∀ task ∈ s.tasks, ∃ n : Nat, n < s.nextId ∧ task.id = Nat.repr n) ∧
  (idsOf s.tasks).Nodup ∧
  s.tasksObs = s.tasks

theorem decimalChars_of_lt {n : Nat} (h : n < 10) :
    decimalChars n = [Nat.digitChar n] := by
  unfold decimalChars
  simp [h]

theorem decimalChars_of_ge {n : Nat} (h : ¬ n < 10) :
    decimalChars n = decimalChars (n / 10) ++ [Nat.digitChar (n % 10)] := by
  conv_lhs => unfold decimalChars
  simp [h]

theorem decimalChars_ne_nil (n : Nat) : decimalChars n ≠ [] := by
  by_cases h : n < 10
  · simp [decimalChars_of_lt h]
  · simp [decimalChars_of_ge h]

theorem toDigitsCore_eq_decimalChars :
    ∀ (fuel n : Nat) (ds : List Char), n < fuel →
      Nat.toDigitsCore 10 fuel n ds = decimalChars n ++ ds := by
  intro fuel
  induction fuel with
  | zero => intro n ds h; omega
  | succ fuel ih =>
    intro n ds h
    by_cases hdiv : n / 10 = 0
    · have hlt : n < 10 := by omega
      have hmod : n % 10 = n := Nat.mod_eq_of_lt hlt
      simp [Nat.toDigitsCore, hdiv, decimalChars_of_lt hlt, hmod]
    · have hge : ¬ n < 10 := by
        intro hlt
        exact hdiv (Nat.div_eq_of_lt hlt)
      have hfuel : n / 10 < fuel := by
        have h1 : n / 10 < n := Nat.div_lt_self (by omega) (by omega)
        omega
      calc Nat.toDigitsCore 10 (fuel + 1) n ds
          = Nat.toDigitsCore 10 fuel (n / 10) (Nat.digitChar (n % 10) :: ds) := by
            simp [Nat.toDigitsCore, hdiv]
        _ = decimalChars (n / 10) ++ (Nat.digitChar (n % 10) :: ds) := ih _ _ hfuel
        _ = decimalChars n ++ ds := by
            rw [decimalChars_of_ge hge]
            simp

theorem repr_eq_decimalChars (n : Nat) :
    Nat.repr n = String.mk (decimalChars n) := by
  show (Nat.toDigits 10 n).asString = String.mk (decimalChars n)
  rw [Nat.toDigits, toDigitsCore_eq_decimalChars (n + 1) n [] (Nat.lt_succ_self n)]
  simp [List.asString]

theorem digitChar_inj_lt :
    ∀ a < 10, ∀ b < 10, Nat.digitChar a = Nat.digitChar b → a = b := by
  decide

theorem decimalChars_inj : ∀ m n : Nat, decimalChars m = decimalChars n → m = n := by
  intro m
  induction m using Nat.strong_induction_on with
  | _ m ih =>
    intro n h
    by_cases hm : m < 10 <;> by_cases hn : n < 10
    · rw [decimalChars_of_lt hm, decimalChars_of_lt hn] at h
      exact digitChar_inj_lt m hm n hn (List.singleton_inj.mp h)
    · rw [decimalChars_of_lt hm, decimalChars_of_ge hn] at h
      have hlen := congrArg List.length h
      simp [List.length_eq_zero] at hlen
      exact absurd hlen (decimalChars_ne_nil _)
    · rw [decimalChars_of_ge hm, decimalChars_of_lt hn] at h
      have hlen := congrArg List.length h
      simp [List.length_eq_zero] at hlen
      exact absurd hlen (decimalChars_ne_nil _)
    · rw [decimalChars_of_ge hm, decimalChars_of_ge hn] at h
      have hparts := List.append_inj' h (by simp)
      have hdiv : m / 10 = n / 10 :=
        ih (m / 10) (Nat.div_lt_self (by omega) (by omega)) (n / 10) hparts.1
      have hmod : m % 10 = n % 10 :=
        digitChar_inj_lt (m % 10) (Nat.mod_lt m (by omega)) (n % 10)
          (Nat.mod_lt n (by omega)) (List.singleton_inj.mp hparts.2)
      omega

theorem repr_inj {m n : Nat} (h : Nat.repr m = Nat.repr n) : m = n := by
  rw [repr_eq_decimalChars, repr_eq_decimalChars] at h
  exact decimalChars_inj m n (congrArg String.data h)

/-! ### List helpers -/

theorem set_of_getElem?_eq {α : Type _} {l : List α} {i : Nat} {a : α}
    (h : l[i]? = some a) : l.set i a = l := by
  induction l generalizing i with
  | nil => simp at h
  | cons x xs ih =>
    cases i with
    | zero =>
      simp only [List.getElem?_cons_zero, Option.some.injEq] at h
      simp [h]
    | succ i =>
      simp only [List.getElem?_cons_succ] at h
      simp [ih h]

theorem find?_of_findIdx?_getElem? {α : Type _} {p : α → Bool} :
    ∀ {l : List α} {i : Nat} {a : α}, l.findIdx? p = some i → l[i]? = some a →
      l.find? p = some a := by
  intro l
  induction l with
  | nil => intro i a hidx _; simp at hidx
  | cons x xs ih =>
    intro i a hidx hget
    by_cases hx : p x
    · simp only [List.findIdx?_cons, hx, if_true] at hidx
      injection hidx with hi
      subst hi
      simp only [List.getElem?_cons_zero, Option.some.injEq] at hget
      subst hget
      exact List.find?_cons_of_pos _ hx
    · rcases hj : xs.findIdx? p with _ | j
      · simp [List.findIdx?_cons, hx, List.findIdx?_succ, hj] at hidx
      · simp [List.findIdx?_cons, hx, List.findIdx?_succ, hj] at hidx
        subst hidx
        simp only [List.getElem?_cons_succ] at hget
        rw [List.find?_cons_of_neg _ hx]
        exact ih hj hget

/-! ### The invariant holds in every reachable state -/

theorem storeInv_initializeSampleData (now : Int) :
    StoreInv (initializeSampleData now) := by
  refine ⟨?_, ?_, rfl⟩
  · intro task htask
    simp only [initializeSampleData, sampleTasks, List.mem_cons,
      List.mem_singleton, List.not_mem_nil, or_false] at htask
    rcases htask with h | h <;> subst h
    · exact ⟨1, by simp [initializeSampleData], rfl⟩
    · exact ⟨2, by simp [initializeSampleData], rfl⟩
  · simp [initializeSampleData, sampleTasks, idsOf]

theorem storeInv_createTask {s : TaskServiceState} (hs : StoreInv s)
    (taskRequest : CreateTaskRequest) (now : Int) :
    StoreInv (createTask s taskRequest now).2 := by
  obtain ⟨hbound, hnodup, _hobs⟩ := hs
  refine ⟨?_, ?_, rfl⟩
  · intro task htask
    simp only [createTask, List.mem_append, List.mem_singleton] at htask
    rcases htask with h | h
    · obtain ⟨n, hn, hid⟩ := hbound task h
      simp only [createTask]
      exact ⟨n, by omega, hid⟩
    · subst h
      simp only [createTask]
      exact ⟨s.nextId, by omega, rfl⟩
  · simp only [createTask, idsOf, List.map_append, List.map_cons, List.map_nil,
      List.nodup_append, List.nodup_cons, List.not_mem_nil, not_false_iff,
      List.nodup_nil, and_true, true_and]
    constructor
    · exact hnodup
    · intro a ha
      simp only [List.mem_map] at ha
      obtain ⟨t, ht, hid⟩ := ha
      obtain ⟨n, hn, hidn⟩ := hbound t ht
      simp only [List.mem_singleton]
      intro hcontra
      subst hcontra
      rw [hidn] at hid
      have := repr_inj hid
      omega

theorem storeInv_updateTask {s : TaskServiceState} (hs : StoreInv s)
    (id : String) (updateRequest : UpdateTaskRequest) (now : Int) :
    StoreInv (updateTask s id updateRequest now).2 := by
  obtain ⟨hbound, hnodup, hobs⟩ := hs
  rcases hidx : s.tasks.findIdx? (fun t => t.id == id) with _ | i
  · simp only [updateTask, hidx]
    exact ⟨hbound, hnodup, hobs⟩
  · rcases hget : s.tasks[i]? with _ | task
    · simp only [updateTask, hidx, hget]
      exact ⟨hbound, hnodup, hobs⟩
    · simp only [updateTask, hidx, hget]
      have hids : idsOf (s.tasks.set i
          { id := task.id
            title := updateRequest.title.getD task.title
            description := updateRequest.description.getD task.description
            completed := updateRequest.completed.getD task.completed
            priority := updateRequest.priority.getD task.priority
            createdAt := task.createdAt
            updatedAt := now
            dueDate := updateRequest.dueDate.or task.dueDate }) = idsOf s.tasks := by
        simp only [idsOf, List.map_set]
        exact set_of_getElem?_eq (by simp [hget])
      refine ⟨?_, ?_, rfl⟩
      · intro t ht
        rcases List.mem_or_eq_of_mem_set ht with h | h
        · exact hbound t h
        · subst h
          obtain ⟨n, hn, hid⟩ := hbound task (List.getElem?_mem hget)
          exact ⟨n, hn, hid⟩
      · rw [hids]
        exact hnodup

theorem storeInv_deleteTask {s : TaskServiceState} (hs : StoreInv s)
    (id : String) : StoreInv (deleteTask s id).2 := by
  obtain ⟨hbound, hnodup, hobs⟩ := hs
  simp only [deleteTask]
  split
  · exact ⟨hbound, hnodup, hobs⟩
  · refine ⟨?_, ?_, rfl⟩
    · intro t ht
      exact hbound t (List.mem_of_mem_filter ht)
    · exact (List.Sublist.map _ (List.filter_sublist s.tasks)).nodup hnodup

theorem storeInv_toggleTaskCompletion {s : TaskServiceState} (hs : StoreInv s)
    (id : String) (now : Int) : StoreInv (toggleTaskCompletion s id now).2 := by
  rcases hfind : s.tasks.find? (fun t => t.id == id) with _ | task
  · simp only [toggleTaskCompletion, hfind]
    exact hs
  · simp only [toggleTaskCompletion, hfind]
    exact storeInv_updateTask hs id _ now

theorem storeInv_clearAllTasks (s : TaskServiceState) :
    StoreInv (clearAllTasks s) := by
  refine ⟨?_, ?_, rfl⟩ <;> simp [clearAllTasks, idsOf]

theorem storeInv_applyOp {s : TaskServiceState} (hs : StoreInv s) (op : Op) :
    StoreInv (applyOp s op) := by
  cases op with
  | create taskRequest now => exact storeInv_createTask hs taskRequest now
  | update id updateRequest now => exact storeInv_updateTask hs id updateRequest now
  | toggle id now => exact storeInv_toggleTaskCompletion hs id now
  | delete id => exact storeInv_deleteTask hs id
  | clearAll => exact storeInv_clearAllTasks s

theorem storeInv_runOps {s : TaskServiceState} (hs : StoreInv s) (ops : List Op) :
    StoreInv (runOps s ops) := by
  induction ops generalizing s with
  | nil => exact hs
  | cons op ops ih => exact ih (storeInv_applyOp hs op)

/-! ### Claim theorems -/

/-- C9: in every store state reachable by any sequence of create, update,
toggle, delete and clearAll operations from the initial (constructed) state,
the ids of the tasks currently held in the collection are pairwise
distinct. -/
theorem reachable_ids_nodup (now : Int) (ops : List Op) :
    (idsOf (runOps (initializeSampleData now) ops).tasks).Nodup :=
  (storeInv_runOps (storeInv_initializeSampleData now) ops).2.1

/-- C10: after construction and after every sequence of mutating operations,
the task sequence held by the BehaviorSubject view (tasksObs) is identical to
the task sequence held by the signal view (tasks): the two public read views
never diverge. -/
theorem views_never_diverge (now : Int) (ops : List Op) :
    (runOps (initializeSampleData now) ops).tasksObs =
      (runOps (initializeSampleData now) ops).tasks :=
  (storeInv_runOps (storeInv_initializeSampleData now) ops).2.2

/-- C5: clearAllTasks empties the task collection (both views) and resets
the identifier counter to 1, so the create immediately following it is
assigned id "1". -/
theorem clearAllTasks_spec (s : TaskServiceState) (taskRequest : CreateTaskRequest)
    (now : Int) :
    (clearAllTasks s).tasks = [] ∧
    (clearAllTasks s).tasksObs = [] ∧
    (clearAllTasks s).nextId = 1 ∧
    (createTask (clearAllTasks s) taskRequest now).1.id = "1" :=
  ⟨rfl, rfl, rfl, by show Nat.repr 1 = "1"; decide⟩

/-- C4 counterexample: the first create on a freshly constructed store is
assigned id "3" (the constructor loads two sample tasks and leaves the
counter at 3), which differs from the id "1" assigned to the first create
after clearAllTasks, so the claimed identifier "1" and the claimed agreement
both fail. -/
theorem freshCreate_counterexample :
    (createTask (initializeSampleData 0) { title := "t" } 0).1.id = "3" ∧
    (createTask (clearAllTasks (initializeSampleData 0)) { title := "t" } 0).1.id = "1" ∧
    (createTask (initializeSampleData 0) { title := "t" } 0).1.id ≠
      (createTask (clearAllTasks (initializeSampleData 0)) { title := "t" } 0).1.id := by
  refine ⟨rfl, rfl, ?_⟩
  decide

/-- C4 amended: the counter field initializer is 1, but the constructor then
runs initializeSampleData, which loads two sample tasks and leaves the
counter at 3; hence the first create on a freshly constructed store is
assigned id "3", while the first create performed after clearAllTasks is
assigned id "1". -/
theorem counter_after_construction (now now2 : Int) (taskRequest : CreateTaskRequest)
    (s : TaskServiceState) :
    fieldInitState.nextId = 1 ∧
    (initializeSampleData now).nextId = 3 ∧
    (createTask (initializeSampleData now) taskRequest now2).1.id = "3" ∧
    (createTask (clearAllTasks s) taskRequest now2).1.id = "1" :=
  ⟨rfl, rfl, by show Nat.repr 3 = "3"; decide, by show Nat.repr 1 = "1"; decide⟩

/-- C1: createTask assigns the current counter value rendered as a base-10
string as the id, increments the counter, sets completed to false, defaults
priority to medium when the request omits it and description to "" when the
request omits it, stamps createdAt and updatedAt with the same current time,
appends the new task at the end of the collection leaving every previously
held task unchanged and in its prior order, and returns the created task. -/
theorem createTask_spec (s : TaskServiceState) (taskRequest : CreateTaskRequest)
    (now : Int) :
    (createTask s taskRequest now).1.id = Nat.repr s.nextId ∧
    (createTask s taskRequest now).2.nextId = s.nextId + 1 ∧
    (createTask s taskRequest now).1.completed = false ∧
    (taskRequest.priority = none →
      (createTask s taskRequest now).1.priority = Priority.medium) ∧
    (taskRequest.description = none →
      (createTask s taskRequest now).1.description = "") ∧
    (createTask s taskRequest now).1.createdAt = now ∧
    (createTask s taskRequest now).1.updatedAt = now ∧
    (createTask s taskRequest now).2.tasks =
      s.tasks ++ [(createTask s taskRequest now).1] := by
  refine ⟨rfl, rfl, rfl, ?_, ?_, rfl, rfl, rfl⟩
  · intro h
    simp [createTask, h]
  · intro h
    simp [createTask, h]

/-- Witness for C1 at a concrete input: on the pre-sample-data state the
counter is 1, so the created task gets id "1", priority medium and empty
description. -/
theorem createTask_spec_witness :
    (createTask fieldInitState { title := "Comprar leche" } 42).1.id = "1" ∧
    (createTask fieldInitState { title := "Comprar leche" } 42).1.priority =
      Priority.medium ∧
    (createTask fieldInitState { title := "Comprar leche" } 42).1.description = "" := by
  have h := createTask_spec fieldInitState { title := "Comprar leche" } 42
  exact ⟨h.1, h.2.2.2.1 rfl, h.2.2.2.2.1 rfl⟩

/-- When no stored task carries the looked-up id, updateTask and
toggleTaskCompletion both return null and hand back the state untouched. -/
theorem notFound_of_absent {s : TaskServiceState} {id : String}
    (habs : ∀ task ∈ s.tasks, task.id ≠ id)
    (updateRequest : UpdateTaskRequest) (now : Int) :
    updateTask s id updateRequest now = (none, s) ∧
      toggleTaskCompletion s id now = (none, s) := by
  have hfi : s.tasks.findIdx? (fun t => t.id == id) = none := by
    rw [List.findIdx?_eq_none_iff]
    intro t ht
    simp [habs t ht]
  have hfind : s.tasks.find? (fun t => t.id == id) = none := by
    rw [List.find?_eq_none]
    intro t ht
    simp [habs t ht]
  exact ⟨by simp [updateTask, hfi], by simp [toggleTaskCompletion, hfind]⟩

/-- After deleteTask no stored task carries the deleted id: the filter drops
every match, and if nothing matched, nothing carried the id to begin with. -/
theorem deleteTask_absent (s : TaskServiceState) (id : String) :
    ∀ task ∈ (deleteTask s id).2.tasks, task.id ≠ id := by
  simp only [deleteTask]
  split
  · rename_i hlen
    simp only [beq_iff_eq] at hlen
    have hsub := List.filter_sublist (p := fun t => !(t.id == id)) s.tasks
    have heq := hsub.eq_of_length hlen
    have hall := List.filter_eq_self.mp heq
    intro task htask hcontra
    have := hall task htask
    simp [hcontra] at this
  · intro task htask hcontra
    have := (List.mem_filter.mp htask).2
    simp [hcontra] at this

/-- C3: for every id not present in the collection, updateTask and
toggleTaskCompletion return the not-found signal null and leave the full
state (task collection, both views, and the counter) unchanged; and after a
deleteTask of an id, any subsequent updateTask or toggleTaskCompletion on it
returns the not-found signal. -/
theorem update_toggle_notFound (s : TaskServiceState) (id : String)
    (updateRequest : UpdateTaskRequest) (now : Int) :
    ((∀ task ∈ s.tasks, task.id ≠ id) →
      updateTask s id updateRequest now = (none, s) ∧
      toggleTaskCompletion s id now = (none, s)) ∧
    (updateTask (deleteTask s id).2 id updateRequest now =
      (none, (deleteTask s id).2) ∧
     toggleTaskCompletion (deleteTask s id).2 id now =
      (none, (deleteTask s id).2)) :=
  ⟨fun habs => notFound_of_absent habs updateRequest now,
   notFound_of_absent (deleteTask_absent s id) updateRequest now⟩

/-- Witness for C3 at a concrete input: id "9" is absent from the sample
state, so update and toggle return null and do not change the state. -/
theorem update_toggle_notFound_witness :
    updateTask (initializeSampleData 0) "9" {} 5 = (none, initializeSampleData 0) ∧
    toggleTaskCompletion (initializeSampleData 0) "9" 5 =
      (none, initializeSampleData 0) :=
  (update_toggle_notFound (initializeSampleData 0) "9" {} 5).1 (by decide)

/-- C8: over every reachable store state, the pending and completed filters
partition the collection: the set of ids of filteredTasks all equals the
union of those of pending and completed, the two id sets are disjoint, and
totalTasksCount equals completedTasksCount plus pendingTasksCount.
filteredTasks is a pure projection of the list: no store field occurs in its
result. -/
theorem filter_partition (now : Int) (ops : List Op) :
    (∀ i, i ∈ idsOf (filteredTasks TaskFilter.all
        (runOps (initializeSampleData now) ops).tasks) ↔
      (i ∈ idsOf (filteredTasks TaskFilter.pending
          (runOps (initializeSampleData now) ops).tasks) ∨
       i ∈ idsOf (filteredTasks TaskFilter.completed
          (runOps (initializeSampleData now) ops).tasks))) ∧
    (∀ i, ¬(i ∈ idsOf (filteredTasks TaskFilter.pending
          (runOps (initializeSampleData now) ops).tasks) ∧
        i ∈ idsOf (filteredTasks TaskFilter.completed
          (runOps (initializeSampleData now) ops).tasks))) ∧
    totalTasksCount (runOps (initializeSampleData now) ops) =
      completedTasksCount (runOps (initializeSampleData now) ops) +
        pendingTasksCount (runOps (initializeSampleData now) ops) := by
  have hnodup : (idsOf (runOps (initializeSampleData now) ops).tasks).Nodup :=
    (storeInv_runOps (storeInv_initializeSampleData now) ops).2.1
  refine ⟨?_, ?_, ?_⟩
  · intro i
    simp only [filteredTasks, idsOf, List.mem_map]
    constructor
    · rintro ⟨t, ht, rfl⟩
      by_cases hc : t.completed
      · exact Or.inr ⟨t, List.mem_filter.mpr ⟨ht, hc⟩, rfl⟩
      · exact Or.inl ⟨t, List.mem_filter.mpr ⟨ht, by simp [hc]⟩, rfl⟩
    · rintro (⟨t, ht, rfl⟩ | ⟨t, ht, rfl⟩) <;>
        exact ⟨t, (List.mem_filter.mp ht).1, rfl⟩
  · rintro i ⟨hp, hc⟩
    simp only [filteredTasks, idsOf, List.mem_map] at hp hc
    obtain ⟨t1, ht1, hid1⟩ := hp
    obtain ⟨t2, ht2, hid2⟩ := hc
    have ht1f := List.mem_filter.mp ht1
    have ht2f := List.mem_filter.mp ht2
    have heq : t1 = t2 :=
      List.inj_on_of_nodup_map hnodup ht1f.1 ht2f.1 (hid1.trans hid2.symm)
    rw [heq] at ht1f
    have h2 := ht2f.2
    have h1 := ht1f.2
    simp [h2] at h1
  · simp only [totalTasksCount, completedTasksCount, pendingTasksCount]
    exact List.length_eq_length_filter_add (fun task : Task => task.completed)

/-- With pairwise distinct ids, filtering for one present id yields exactly
the one task carrying it. -/
theorem filter_id_eq_singleton {l : List Task} {task : Task} {id : String}
    (hnodup : (idsOf l).Nodup) (hmem : task ∈ l) (hid : task.id = id) :
    l.filter (fun t => t.id == id) = [task] := by
  induction l with
  | nil => simp at hmem
  | cons x xs ih =>
    simp only [idsOf, List.map_cons, List.nodup_cons] at hnodup
    obtain ⟨hx, hxs⟩ := hnodup
    rcases List.mem_cons.mp hmem with rfl | hmemx
    · rw [List.filter_cons_of_pos (by simp [hid])]
      have hnil : xs.filter (fun t => t.id == id) = [] := by
        rw [List.filter_eq_nil_iff]
        intro t ht
        simp only [beq_iff_eq]
        intro hc
        apply hx
        rw [hid, ← hc]
        exact List.mem_map.mpr ⟨t, ht, rfl⟩
      rw [hnil]
    · have hxid : x.id ≠ id := by
        intro hc
        exact hx (hc ▸ hid ▸ List.mem_map.mpr ⟨task, hmemx, rfl⟩)
      rw [List.filter_cons_of_neg (by simp [hxid])]
      exact ih hxs hmemx

/-- C6: deleteTask removes the task carrying the given id when present and
returns true, preserving the relative order and contents of all remaining
tasks; when no task carries the id it returns false and changes nothing. -/
theorem deleteTask_spec (s : TaskServiceState) (id : String) :
    ((∀ task ∈ s.tasks, task.id ≠ id) → deleteTask s id = (false, s)) ∧
    ((idsOf s.tasks).Nodup →
      ∀ task ∈ s.tasks, task.id = id →
        (deleteTask s id).1 = true ∧
        (deleteTask s id).2.tasks.Sublist s.tasks ∧
        (deleteTask s id).2.tasks.length + 1 = s.tasks.length ∧
        (∀ u ∈ s.tasks, u.id ≠ id → u ∈ (deleteTask s id).2.tasks) ∧
        (∀ u ∈ (deleteTask s id).2.tasks, u.id ≠ id)) := by
  constructor
  · intro habs
    have hfeq : s.tasks.filter (fun t => !(t.id == id)) = s.tasks := by
      rw [List.filter_eq_self]
      intro t ht
      simp [habs t ht]
    simp [deleteTask, hfeq]
  · intro hnodup task hmem hid
    have hone : s.tasks.filter (fun t => t.id == id) = [task] :=
      filter_id_eq_singleton hnodup hmem hid
    have hlen : (s.tasks.filter (fun t => !(t.id == id))).length + 1 =
        s.tasks.length := by
      have hpart := List.length_eq_length_filter_add
        (l := s.tasks) (fun t : Task => t.id == id)
      rw [hone] at hpart
      simpa [Nat.add_comm] using hpart.symm
    have hcond : ((s.tasks.filter (fun t => !(t.id == id))).length ==
        s.tasks.length) = false := by
      simp only [beq_eq_false_iff_ne]
      omega
    refine ⟨?_, ?_, ?_, ?_, ?_⟩
    · simp [deleteTask, hcond]
    · simp only [deleteTask, hcond]
      exact List.filter_sublist s.tasks
    · simpa only [deleteTask, hcond, Bool.false_eq_true, if_false] using hlen
    · intro u hu huid
      simp only [deleteTask, hcond, Bool.false_eq_true, if_false]
      exact List.mem_filter.mpr ⟨hu, by simp [huid]⟩
    · intro u hu
      simp only [deleteTask, hcond, Bool.false_eq_true, if_false] at hu
      have := (List.mem_filter.mp hu).2
      intro hc
      simp [hc] at this

/-- Witness for C6 at a concrete input: deleting id "1" from the sample
state removes the first sample task, returns true, and one task remains. -/
theorem deleteTask_spec_witness :
    (deleteTask (initializeSampleData 0) "1").1 = true ∧
    (deleteTask (initializeSampleData 0) "1").2.tasks.length + 1 =
      (initializeSampleData 0).tasks.length ∧
    deleteTask (initializeSampleData 0) "9" = (false, initializeSampleData 0) := by
  have h := (deleteTask_spec (initializeSampleData 0) "1").2 (by decide)
    ((sampleTasks 0).get ⟨0, by decide⟩) (by decide) (by decide)
  exact ⟨h.1, h.2.2.1, (deleteTask_spec (initializeSampleData 0) "9").1 (by decide)⟩

/-- C2: on a task present in the store under the given id, updateTask
returns the field-wise merge of the stored task and the patch: a patch field
that is present overrides, an absent one keeps the stored value, id and
createdAt never change, updatedAt becomes the current time; the merged task
replaces the stored one at its original position, every other position and
the counter are untouched; the empty patch changes updatedAt and nothing
else. -/
theorem updateTask_spec (s : TaskServiceState) (id : String)
    (updateRequest : UpdateTaskRequest) (now : Int) (i : Nat) (task : Task)
    (hidx : s.tasks.findIdx? (fun t => t.id == id) = some i)
    (hget : s.tasks[i]? = some task) :
    ∃ u : Task,
      (updateTask s id updateRequest now).1 = some u ∧
      u.id = task.id ∧
      u.createdAt = task.createdAt ∧
      u.updatedAt = now ∧
      u.title = updateRequest.title.getD task.title ∧
      u.description = updateRequest.description.getD task.description ∧
      u.completed = updateRequest.completed.getD task.completed ∧
      u.priority = updateRequest.priority.getD task.priority ∧
      u.dueDate = updateRequest.dueDate.or task.dueDate ∧
      (updateRequest = {} → u = { task with updatedAt := now }) ∧
      (updateTask s id updateRequest now).2.tasks = s.tasks.set i u ∧
      (updateTask s id updateRequest now).2.tasks.length = s.tasks.length ∧
      (∀ j, j ≠ i → (updateTask s id updateRequest now).2.tasks[j]? = s.tasks[j]?) ∧
      (updateTask s id updateRequest now).2.tasksObs =
        (updateTask s id updateRequest now).2.tasks ∧
      (updateTask s id updateRequest now).2.nextId = s.nextId := by
  refine ⟨{ id := task.id
            title := updateRequest.title.getD task.title
            description := updateRequest.description.getD task.description
            completed := updateRequest.completed.getD task.completed
            priority := updateRequest.priority.getD task.priority
            createdAt := task.createdAt
            updatedAt := now
            dueDate := updateRequest.dueDate.or task.dueDate },
          ?_, rfl, rfl, rfl, rfl, rfl, rfl, rfl, rfl, ?_, ?_, ?_, ?_, ?_, ?_⟩
  · simp only [updateTask, hidx, hget]
  · rintro rfl
    rfl
  · simp only [updateTask, hidx, hget]
  · simp only [updateTask, hidx, hget, List.length_set]
  · intro j hj
    simp only [updateTask, hidx, hget]
    exact List.getElem?_set_ne (Ne.symm hj)
  · simp only [updateTask, hidx, hget]
  · simp only [updateTask, hidx, hget]

/-- Witness for C2 at a concrete input: patching only the priority of sample
task "2" keeps its title and completion flag and stamps updatedAt. -/
theorem updateTask_spec_witness :
    ∃ u : Task,
      (updateTask (initializeSampleData 0) "2" { priority := some Priority.low } 7).1 =
        some u ∧
      u.id = "2" ∧
      u.priority = Priority.low ∧
      u.title = "Crear componentes de tareas" ∧
      u.completed = false ∧
      u.updatedAt = 7 := by
  obtain ⟨u, hret, hid, _, hupd, htitle, _, hcompleted, hpriority, _⟩ :=
    updateTask_spec (initializeSampleData 0) "2" { priority := some Priority.low } 7
      1 ((sampleTasks 0).get ⟨1, by decide⟩) (by decide) (by decide)
  refine ⟨u, hret, ?_, ?_, ?_, ?_, hupd⟩
  · rw [hid]; decide
  · rw [hpriority]; decide
  · rw [htitle]; decide
  · rw [hcompleted]; decide

/-- Writing an element that still satisfies the predicate back at the first
matching index leaves that index the first match. -/
theorem findIdx?_set_of_sat {α : Type _} {p : α → Bool} :
    ∀ {l : List α} {i : Nat} {u : α}, l.findIdx? p = some i → p u = true →
      (l.set i u).findIdx? p = some i := by
  intro l
  induction l with
  | nil => intro i u h _; simp at h
  | cons x xs ih =>
    intro i u hidx hu
    by_cases hx : p x
    · simp only [List.findIdx?_cons, hx, if_true, Option.some.injEq] at hidx
      subst hidx
      simp [List.set_cons_zero, List.findIdx?_cons, hu]
    · rcases hj : xs.findIdx? p with _ | j
      · simp [List.findIdx?_cons, hx, List.findIdx?_succ, hj] at hidx
      · simp [List.findIdx?_cons, hx, List.findIdx?_succ, hj] at hidx
        subst hidx
        simp [List.set_cons_succ, List.findIdx?_cons, hx, List.findIdx?_succ,
          ih hj hu]

/-- C7: on a task present in the store, toggleTaskCompletion equals
updateTask with the single-field patch negating the current completed flag,
and applying toggleTaskCompletion twice returns the task to its original
completed value while every field other than updatedAt is unchanged and the
task stays at its original position. -/
theorem toggleTaskCompletion_spec (s : TaskServiceState) (id : String)
    (now now2 : Int) (i : Nat) (task : Task)
    (hidx : s.tasks.findIdx? (fun t => t.id == id) = some i)
    (hget : s.tasks[i]? = some task) :
    toggleTaskCompletion s id now =
      updateTask s id { completed := some (!task.completed) } now ∧
    ∃ task2 : Task,
      (toggleTaskCompletion (toggleTaskCompletion s id now).2 id now2).1 =
        some task2 ∧
      task2.completed = task.completed ∧
      task2.id = task.id ∧
      task2.title = task.title ∧
      task2.description = task.description ∧
      task2.priority = task.priority ∧
      task2.createdAt = task.createdAt ∧
      task2.dueDate = task.dueDate ∧
      task2.updatedAt = now2 ∧
      (toggleTaskCompletion (toggleTaskCompletion s id now).2 id now2).2.tasks =
        s.tasks.set i task2 := by
  have hfind : s.tasks.find? (fun t => t.id == id) = some task :=
    find?_of_findIdx?_getElem? hidx hget
  have hp : (task.id == id) = true := by
    have h := List.findIdx?_of_eq_some hidx
    rw [hget] at h
    simpa using h
  have hlt : i < s.tasks.length := (List.getElem?_eq_some_iff.mp hget).1
  have hA : toggleTaskCompletion s id now =
      updateTask s id { completed := some (!task.completed) } now := by
    simp only [toggleTaskCompletion, hfind]
  refine ⟨hA, ?_⟩
  have hcomp1 : toggleTaskCompletion s id now =
      (some { id := task.id
              title := task.title
              description := task.description
              completed := !task.completed
              priority := task.priority
              createdAt := task.createdAt
              updatedAt := now
              dueDate := task.dueDate },
       { tasks := s.tasks.set i
           { id := task.id
             title := task.title
             description := task.description
             completed := !task.completed
             priority := task.priority
             createdAt := task.createdAt
             updatedAt := now
             dueDate := task.dueDate }
         tasksObs := s.tasks.set i
           { id := task.id
             title := task.title
             description := task.description
             completed := !task.completed
             priority := task.priority
             createdAt := task.createdAt
             updatedAt := now
             dueDate := task.dueDate }
         nextId := s.nextId }) := by
    rw [hA]
    simp only [updateTask, hidx, hget, Option.getD_none, Option.getD_some,
      Option.none_or]
  rw [hcomp1]
  have hidx1 : (s.tasks.set i
      { id := task.id
        title := task.title
        description := task.description
        completed := !task.completed
        priority := task.priority
        createdAt := task.createdAt
        updatedAt := now
        dueDate := task.dueDate }).findIdx? (fun t => t.id == id) = some i :=
    findIdx?_set_of_sat hidx hp
  have hget1 : (s.tasks.set i
      { id := task.id
        title := task.title
        description := task.description
        completed := !task.completed
        priority := task.priority
        createdAt := task.createdAt
        updatedAt := now
        dueDate := task.dueDate })[i]? = some
      { id := task.id
        title := task.title
        description := task.description
        completed := !task.completed
        priority := task.priority
        createdAt := task.createdAt
        updatedAt := now
        dueDate := task.dueDate } :=
    List.getElem?_set_self hlt
  have hfind1 := find?_of_findIdx?_getElem? hidx1 hget1
  refine ⟨{ id := task.id
            title := task.title
            description := task.description
            completed := !(!task.completed)
            priority := task.priority
            createdAt := task.createdAt
            updatedAt := now2
            dueDate := task.dueDate },
          ?_, by simp, rfl, rfl, rfl, rfl, rfl, rfl, rfl, ?_⟩
  · simp only [toggleTaskCompletion, hfind1, updateTask, hidx1, hget1,
      Option.getD_none, Option.getD_some, Option.none_or]
  · simp only [toggleTaskCompletion, hfind1, updateTask, hidx1, hget1,
      Option.getD_none, Option.getD_some, Option.none_or, List.set_set]

/-- Witness for C7 at a concrete input: toggling sample task "2" equals the
corresponding single-field update, and toggling it twice restores
completed = false. -/
theorem toggleTaskCompletion_spec_witness :
    toggleTaskCompletion (initializeSampleData 0) "2" 7 =
      updateTask (initializeSampleData 0) "2" { completed := some true } 7 ∧
    ((toggleTaskCompletion (toggleTaskCompletion (initializeSampleData 0) "2" 7).2
        "2" 9).1.map (fun t => t.completed)) = some false := by
  obtain ⟨hA, task2, hret, hcmp, -, -, -, -, -, -, -⟩ :=
    toggleTaskCompletion_spec (initializeSampleData 0) "2" 7 9 1
      ((sampleTasks 0).get ⟨1, by decide⟩) (by decide) (by decide)
  refine ⟨hA, ?_⟩
  rw [hret]
  simp only [Option.map_some', Option.some.injEq]
  rw [hcmp]
  decide

end TaskManager
